import Mathlib

/-!
Shallow embedding of `crtomo/configManager.py` (class `ConfigManager`) and
verification of the specification claims about it.

Conventions of the embedding:
* a quadrupole configuration is a 4-tuple of integers `(A, B, M, N)`;
* `self.configs` (an `Nx4` numpy array or `None`) is `Option (List Quad)`;
* `self.measurements` (a dict id -> vector) is an association list that
  records insertions in order;
* measurement values are rationals (the float values play no role in any
  claim; exact arithmetic is used where Python uses floats, with the
  rounding analysed at the concrete inputs considered);
* numpy's `np.nan` placeholder rows produced by
  `split_into_normal_and_reciprocal(pad=True)` are `none`, real rows `some q`;
* raising an exception is modelled by returning the pre-raise state together
  with an error value: every mutation the Python code performs before the
  `raise` statement is performed before the error is returned.
-/

namespace Crtomo

/-- A four-point configuration `(A, B, M, N)` of 1-based electrode numbers. -/
abbrev Quad := ℤ × ℤ × ℤ × ℤ

/-- Errors raised by `ConfigManager` methods (all are plain `Exception`s in
the Python source; we distinguish them by raise site). -/
inductive LoadErr where
  | countMismatch   -- declared row count differs from parsed rows
  | configMismatch  -- volt-file quadrupoles differ from stored configs
  | noConfigs       -- `add_measurements` called before any configuration exists
  | shapeMismatch   -- measurement shape matches neither dimension
  deriving DecidableEq, Repr

/-- The mutable state of a `ConfigManager` instance. -/
structure State where
  configs : Option (List Quad)
  measurements : List (ℤ × List ℚ)
  meas_counter : ℤ
  nr_electrodes : Option ℤ
  deriving DecidableEq, Repr

/-- Embeds `ConfigManager.__init__`: `configs = None`, empty measurement
dict, `meas_counter = -1`, `nr_electrodes` as passed. -/
def initState (nr_of_electrodes : Option ℤ) : State :=
  { configs := none
    measurements := []
    meas_counter := -1
    nr_electrodes := nr_of_electrodes }

/-- Embeds `_get_next_index`: increment `meas_counter`, return it. -/
def _get_next_index (s : State) : State × ℤ :=
  ({ s with meas_counter := s.meas_counter + 1 }, s.meas_counter + 1)

/-- Embeds the `nr_of_configs` property: `0` if `configs is None`, else
`configs.shape[0]`. -/
def nr_of_configs (s : State) : ℕ :=
  match s.configs with
  | none => 0
  | some c => c.length

/-- Embeds the per-pair encoding of `_get_crmod_abmn`:
`configs[:, 0] * 1e4 + configs[:, 1]` — the first electrode of the pair is
placed in the high-order digits. -/
def encodePair (x y : ℤ) : ℤ := x * 10000 + y

/-- Embeds the per-value decoding of `_crmod_to_abmn`:
`A = configs[:, 0] % 1e4`, `B = np.floor(configs[:, 0] / 1e4)` — the first
electrode of the decoded pair is taken from the low-order digits.
Python `%` with a positive modulus and `np.floor` division by a positive
number coincide with Lean's `%` and `/` on `ℤ`. -/
def decodePair (v : ℤ) : ℤ × ℤ := (v % 10000, v / 10000)

/-- Embeds `_crmod_to_abmn` on a whole `Nx2` array: both columns are decoded
with `decodePair` and the results are stacked to rows `(A, B, M, N)`. -/
def _crmod_to_abmn (rows : List (ℤ × ℤ)) : List Quad :=
  rows.map (fun r =>
    ((decodePair r.1).1, (decodePair r.1).2, (decodePair r.2).1, (decodePair r.2).2))

/-- Embeds `_get_crmod_abmn`: each stored row `(A, B, M, N)` becomes the pair
`(A * 1e4 + B, M * 1e4 + N)`. -/
def _get_crmod_abmn (configs : List Quad) : List (ℤ × ℤ) :=
  configs.map (fun q => (encodePair q.1 q.2.1, encodePair q.2.2.1 q.2.2.2))

/-- Embeds `load_crmod_config` on an already-tokenised file: `declared` is
the integer on the first line, `rows` the parsed data rows. The row-count
check precedes the single mutation `self.configs = ABMN`; on failure the
state is returned as it was at the raise. -/
def load_crmod_config (declared : ℕ) (rows : List (ℤ × ℤ)) (s : State) :
    State × Option LoadErr :=
  if rows.length ≠ declared then
    (s, some LoadErr.countMismatch)
  else
    ({ s with configs := some (_crmod_to_abmn rows) }, none)

/-- Number of rows of a 2-D numpy array modelled as a list of rows
(`shape[0]`). -/
def shape0 (m : List (List ℚ)) : ℕ := m.length

/-- Number of columns of a 2-D numpy array modelled as a list of rows
(`shape[1]`): numpy arrays are rectangular, so this is the length of the
first row (`0` for an empty array). -/
def shape1 (m : List (List ℚ)) : ℕ := (m.headD []).length

/-- Embeds the storage loop of `add_measurements`:
`for dataset in subdata: cid = self._get_next_index();
self.measurements[cid] = dataset.copy()` with the returned id list. -/
def addLoop : List (List ℚ) → State → State × List ℤ
  | [], s => (s, [])
  | d :: rest, s =>
    let next := _get_next_index s
    let s1 := { next.1 with measurements := next.1.measurements ++ [(next.2, d)] }
    let r := addLoop rest s1
    (r.1, next.2 :: r.2)

/-- Embeds `add_measurements` on an input already brought to 2-D form by
`np.atleast_2d` (a `K x N` list of rows). The `configs is None` check comes
first; then the shape accommodation: if `shape[1]` differs from the number
of configs the array is transposed once provided `shape[0]` matches,
otherwise the call fails. All checks precede any mutation. The Python
function unwraps a singleton id list to a scalar; we always return the
list. -/
def add_measurements (meas : List (List ℚ)) (s : State) :
    State × Except LoadErr (List ℤ) :=
  match s.configs with
  | none => (s, Except.error LoadErr.noConfigs)
  | some cfg =>
    if shape1 meas ≠ cfg.length then
      if shape0 meas = cfg.length then
        let r := addLoop meas.transpose s
        (r.1, Except.ok r.2)
      else
        (s, Except.error LoadErr.shapeMismatch)
    else
      let r := addLoop meas s
      (r.1, Except.ok r.2)

/-- Embeds `np.all(a == b)` on two 2-D integer arrays whose rows all have
width 4 (`Nx4` against `Mx4`), as the source's config-match check uses it.
The width-4 axes always match; the row axes broadcast when they are equal
or one of them is 1 (the single row is then compared against every row of
the other array); with incompatible row counts the elementwise `==` of
this numpy era returns the scalar `False`, so `np.all` is false. -/
def npAllEqRows (a b : List Quad) : Bool :=
  if a.length = b.length then
    decide (a = b)
  else if a.length = 1 then
    b.all (fun q => decide (q = a.headD default))
  else if b.length = 1 then
    a.all (fun q => decide (q = b.headD default))
  else
    false

/-- Embeds `load_crmod_volt` on an already-tokenised file: each row is
`(encoded AB, encoded MN, magnitude, phase)`. Checks happen in source
order: row count, then (when configurations are already stored) the
broadcasting comparison `np.all(ABMN == self.configs)` of the decoded
quadrupoles with the stored ones; only then are the magnitude and phase
columns registered as two measurement sets. On failure the state is
returned as it was at the raise. -/
def load_crmod_volt (declared : ℕ) (rows : List (ℤ × ℤ × ℚ × ℚ)) (s : State) :
    State × Except LoadErr (List ℤ) :=
  if rows.length ≠ declared then
    (s, Except.error LoadErr.countMismatch)
  else
    let ABMN := _crmod_to_abmn (rows.map (fun r => (r.1, r.2.1)))
    let cont : State → State × Except LoadErr (List ℤ) := fun s0 =>
      match add_measurements [rows.map (fun r => r.2.2.1)] s0 with
      | (s1, Except.error e) => (s1, Except.error e)
      | (s1, Except.ok ids1) =>
        match add_measurements [rows.map (fun r => r.2.2.2)] s1 with
        | (s2, Except.error e) => (s2, Except.error e)
        | (s2, Except.ok ids2) => (s2, Except.ok (ids1 ++ ids2))
    match s.configs with
    | none => cont { s with configs := some ABMN }
    | some cfg =>
      if ¬ npAllEqRows ABMN cfg then
        (s, Except.error LoadErr.configMismatch)
      else
        cont s

/-- Embeds `add_to_configs`: an empty batch returns `None` without touching
the store; otherwise the batch is appended (or adopted when the store is
empty) and the full store is returned. -/
def add_to_configs (configs : List Quad) (s : State) :
    State × Option (List Quad) :=
  if configs.length = 0 then
    (s, none)
  else
    match s.configs with
    | none => ({ s with configs := some configs }, some configs)
    | some old =>
      ({ s with configs := some (old ++ configs) }, some (old ++ configs))

/-- Python's `range(lo, hi)` (step 1) over integers. -/
def pyRange (lo hi : ℤ) : List ℤ :=
  (List.range (hi - lo).toNat).map (fun k => lo + Int.ofNat k)

/-- Python's `int(...)` applied to an exact real value: truncation toward
zero. The Python source computes the argument in floating point; at every
input considered in this development the float result truncates to the same
integer as the exact rational value. -/
def pyInt (q : ℚ) : ℤ := if 0 ≤ q then ⌊q⌋ else -⌊-q⌋

/-- Embeds the row generation of `gen_schlumberger(M, N)` for a configured
electrode count `E`:
`a = np.abs(M - N)`;
`nr_of_steps_left = int(min(M, N) - 1 / a)` (note: the division binds
tighter than the subtraction, exactly as in the source);
`nr_of_steps_right = int((self.nr_electrodes - max(M, N)) / a)`;
one row `(min(M,N) - (i+1)*a, max(M,N) + (i+1)*a, M, N)` per
`i in range(0, min(left, right))`. -/
def gen_schlumberger_rows (E M N : ℤ) : List Quad :=
  let a : ℤ := |M - N|
  let nr_of_steps_left : ℤ := pyInt ((min M N : ℚ) - 1 / (a : ℚ))
  let nr_of_steps_right : ℤ := pyInt (((E - max M N : ℤ) : ℚ) / (a : ℚ))
  (List.range (min nr_of_steps_left nr_of_steps_right).toNat).map (fun i =>
    (min M N - ((i : ℤ) + 1) * a, max M N + ((i : ℤ) + 1) * a, M, N))

/-- Embeds `gen_schlumberger` including the append to the store via
`add_to_configs`. -/
def gen_schlumberger (M N : ℤ) (E : ℤ) (s : State) : State × List Quad :=
  let rows := gen_schlumberger_rows E M N
  ((add_to_configs rows s).1, rows)

/-- Embeds the row generation of `gen_wenner(a)` for a configured electrode
count `E`: one row `(i, i + a, i + 2a, i + 3a)` per
`i in range(1, E - 3 * a + 1)`. -/
def gen_wenner_rows (E a : ℤ) : List Quad :=
  (pyRange 1 (E - 3 * a + 1)).map (fun i => (i, i + a, i + 2 * a, i + 3 * a))

/-- Embeds `gen_wenner` including the append to the store via
`add_to_configs`. -/
def gen_wenner (a : ℤ) (E : ℤ) (s : State) : State × List Quad :=
  let rows := gen_wenner_rows E a
  ((add_to_configs rows s).1, rows)

/-- Lexicographic order on quadrupole rows, the order in which `np.unique`
on a 4-field structured view returns its (sorted) unique rows. -/
def quadLE (p q : Quad) : Prop :=
  p.1 < q.1 ∨ (p.1 = q.1 ∧ (p.2.1 < q.2.1 ∨ (p.2.1 = q.2.1 ∧
    (p.2.2.1 < q.2.2.1 ∨ (p.2.2.1 = q.2.2.1 ∧ p.2.2.2 ≤ q.2.2.2)))))

instance : DecidableRel quadLE := fun p q => by
  unfold quadLE
  infer_instance

/-- Embeds `remove_duplicates` on an explicit `Kx4` array:
`np.unique(struct)` over the 4-field structured view returns the sorted
sequence of the distinct rows, compared field by field (exact 4-tuple
equality, no permutation of columns). Modelled as lexicographic sort
followed by removal of equal rows. -/
def remove_duplicates (c : List Quad) : List Quad :=
  (c.insertionSort quadLE).dedup

/-- Sort a 2-element pair ascending (`np.sort(..., axis=1)` on a 2-column
slice). -/
def sortPair (p : ℤ × ℤ) : ℤ × ℤ := if p.1 ≤ p.2 then p else (p.2, p.1)

/-- Current-electrode pair `(A, B)` of a row. -/
def abOf (q : Quad) : ℤ × ℤ := (q.1, q.2.1)

/-- Voltage-electrode pair `(M, N)` of a row. -/
def mnOf (q : Quad) : ℤ × ℤ := (q.2.2.1, q.2.2.2)

/-- A row with its `(A, B)` and `(M, N)` halves each sorted ascending: one
row of the array `configs` built at the start of
`split_into_normal_and_reciprocal`. -/
def normalizeQuad (q : Quad) : Quad :=
  ((sortPair (abOf q)).1, (sortPair (abOf q)).2,
   (sortPair (mnOf q)).1, (sortPair (mnOf q)).2)

/-- A row with its current and voltage dipoles exchanged. -/
def swapQuad (q : Quad) : Quad := (q.2.2.1, q.2.2.2, q.1, q.2.1)

/-- Embeds the reciprocal search of `split_into_normal_and_reciprocal`:
`np.where` over the normalized array `cn` of the indices whose sorted
`(A, B)` equals row `index`'s sorted `(M, N)` and vice versa (returned in
ascending index order, as `np.where` does). -/
def recIndices (cn : List Quad) (index : ℕ) : List ℕ :=
  (List.range cn.length).filter (fun j =>
    decide (abOf (cn.getD j default) = mnOf (cn.getD index default) ∧
            mnOf (cn.getD j default) = abOf (cn.getD index default)))

/-- Embeds `indices_normal = np.where(ab_min < mn_min)[0]` (rule 1 of
`split_into_normal_and_reciprocal`): the indices, in ascending order, of
the rows whose normalized smaller current electrode is strictly below the
normalized smaller voltage electrode. -/
def normalIndices (configs : List Quad) : List ℕ :=
  let cn := configs.map normalizeQuad
  (List.range configs.length).filter (fun i =>
    decide ((cn.getD i default).1 < (cn.getD i default).2.2.1))

/-- Embeds the `indices_used` list accumulated by the main loop of
`split_into_normal_and_reciprocal`: every normal index together with every
index found by its reciprocal search (the loop appends `index_rec[0]` in
the singleton branch and all of `index_rec` in the multiple-match branch,
which as a set is all of `index_rec` in both cases). -/
def usedIndices (configs : List Quad) : List ℕ :=
  normalIndices configs ++
    (normalIndices configs).flatMap (recIndices (configs.map normalizeQuad))

/-- Embeds `reciprocal_only_indices = set(range(N)) - set(indices_used)`,
iterated in ascending index order. -/
def orphanIndices (configs : List Quad) : List ℕ :=
  (List.range configs.length).filter (fun i => decide (i ∉ usedIndices configs))

/-- Embeds `split_into_normal_and_reciprocal`. `np.nan` placeholder rows
are `none`, real rows `some q`. The iterations of the main loop are
independent of one another (the `indices_used` list is only consulted after
the loop), so the loop is transcribed as per-index list building. The
branch condition `len(index_rec > 1)` of the source evaluates, for every
reachable case, exactly like `len(index_rec) > 1` (it is the length of a
boolean array, hence truthy iff `index_rec` is non-empty, and the
`len == 0` and `len == 1` cases are caught earlier), so every non-empty
search appends the first found reciprocal. -/
def split_into_normal_and_reciprocal (configs : List Quad) (pad : Bool) :
    List (Option Quad) × List (Option Quad) :=
  let cn := configs.map normalizeQuad
  let normalMain : List (Option Quad) :=
    (normalIndices configs).map (fun i => some (configs.getD i default))
  let recipMain : List (Option Quad) :=
    (normalIndices configs).flatMap (fun i =>
      match recIndices cn i with
      | [] => if pad then [none] else []
      | j :: _ => [some (configs.getD j default)])
  let normalPad : List (Option Quad) :=
    if pad then (orphanIndices configs).map (fun _ => none) else []
  let recipOrphan : List (Option Quad) :=
    (orphanIndices configs).map (fun i => some (configs.getD i default))
  (normalMain ++ normalPad, recipMain ++ recipOrphan)

/-- The reciprocal row emitted for one normal index when padding is
requested: the placeholder if the search found nothing, else the first
found row. -/
def recipOne (configs : List Quad) (i : ℕ) : Option Quad :=
  match recIndices (configs.map normalizeQuad) i with
  | [] => none
  | j :: _ => some (configs.getD j default)

/-- Runs a sequence of `add_measurements` calls on one instance, collecting
the returned ids in order; a failed call raises before any mutation, so it
contributes no ids and leaves the state as it was. -/
def runAdds : List (List (List ℚ)) → State → State × List ℤ
  | [], s => (s, [])
  | b :: bs, s =>
    match add_measurements b s with
    | (s1, Except.ok ids) =>
      let r := runAdds bs s1
      (r.1, ids ++ r.2)
    | (s1, Except.error _) => runAdds bs s1

/-- The ids handed out by `m` consecutive `_get_next_index` calls starting
from counter value `c`: `c + 1, c + 2, ..., c + m`. -/
def consecFrom (c : ℤ) (m : ℕ) : List ℤ :=
  (List.range m).map (fun k => c + 1 + Int.ofNat k)

/-- Index-alignment of one output position of
`split_into_normal_and_reciprocal` with padding: either one side is the
`np.nan` placeholder, or the reciprocal row is, up to normalization of its
two dipoles, the normal row with current and voltage dipoles exchanged. -/
def alignedPair (n r : Option Quad) : Prop :=
  n = none ∨ r = none ∨
    ∃ a b, n = some a ∧ r = some b ∧
      normalizeQuad b = swapQuad (normalizeQuad a)

/-! ## Helper lemmas -/

theorem pyRange_length (lo hi : ℤ) :
    (pyRange lo hi).length = (hi - lo).toNat := by
  unfold pyRange
  rw [List.length_map, List.length_range]

theorem pyRange_getElem (lo hi : ℤ) (k : ℕ)
    (h : k < (pyRange lo hi).length) :
    (pyRange lo hi)[k] = lo + (k : ℤ) := by
  unfold pyRange
  simp only [List.getElem_map, List.getElem_range, Int.ofNat_eq_natCast]

/-! ## Claim theorems -/

/-- C1: the claimed round trip `decode(encode(x, y)) = (x, y)` fails on the
code: `_get_crmod_abmn` places the first electrode of a pair in the
high-order digits (`x * 1e4 + y`) while `_crmod_to_abmn` reads the first
electrode from the low-order digits (`v % 1e4`), so the round trip swaps
every pair. At the failing input `(x, y) = (1, 2)` the round trip returns
`(2, 1)`, and a full row `(1, 2, 3, 4)` exported and re-imported becomes
`(2, 1, 4, 3)`. -/
theorem C1_decode_encode_swaps :
    decodePair (encodePair 1 2) = (2, 1) ∧
    _crmod_to_abmn (_get_crmod_abmn [(1, 2, 3, 4)]) = [(2, 1, 4, 3)] ∧
    ((2 : ℤ), (1 : ℤ)) ≠ ((1 : ℤ), (2 : ℤ)) :=
  ⟨by decide, by decide, by decide⟩

/-- C2: the claim that every configuration generated by `gen_schlumberger`
has all four electrode indices within `[1, nr_electrodes]` fails on the
code: with 15 electrodes and potential dipole `M = 5, N = 7` (spacing
`a = 2`), `nr_of_steps_left = int(min(M, N) - 1 / a) = int(4.5) = 4` (the
division binds tighter than the subtraction), so the generator emits rows
with current electrodes `-1` and `-3`. -/
theorem C2_schlumberger_out_of_range :
    gen_schlumberger_rows 15 5 7 =
      [(3, 9, 5, 7), (1, 11, 5, 7), (-1, 13, 5, 7), (-3, 15, 5, 7)] ∧
    ∃ q ∈ gen_schlumberger_rows 15 5 7, q.1 < 1 := by
  have h : gen_schlumberger_rows 15 5 7 =
      [(3, 9, 5, 7), (1, 11, 5, 7), (-1, 13, 5, 7), (-3, 15, 5, 7)] := by
    unfold gen_schlumberger_rows
    norm_num [pyInt]
    decide
  refine ⟨h, ⟨(-3, 15, 5, 7), ?_, by decide⟩⟩
  rw [h]
  decide

/-- C4: `remove_duplicates` keeps exactly one representative of each
distinct 4-tuple of its input, with duplicates detected by exact
column-wise equality: membership is preserved, the output has no duplicate
rows, the example `[(1,2,3,4), (1,2,3,4), (5,6,7,8)]` yields exactly the
two distinct rows in either input order, and polarity-swapped rows such as
`(1,2,3,4)` and `(2,1,4,3)` are NOT identified. -/
theorem C4_remove_duplicates_unique (c : List Quad) :
    (∀ q : Quad, q ∈ remove_duplicates c ↔ q ∈ c) ∧
    (remove_duplicates c).Nodup ∧
    remove_duplicates [(1,2,3,4), (1,2,3,4), (5,6,7,8)] =
      [(1,2,3,4), (5,6,7,8)] ∧
    remove_duplicates [(5,6,7,8), (1,2,3,4), (1,2,3,4)] =
      [(1,2,3,4), (5,6,7,8)] ∧
    remove_duplicates [(1,2,3,4), (2,1,4,3)] = [(1,2,3,4), (2,1,4,3)] := by
  refine ⟨fun q => ?_, ?_, by rfl, by rfl, by rfl⟩
  · unfold remove_duplicates
    rw [List.mem_dedup]
    exact (List.perm_insertionSort quadLE c).mem_iff
  · unfold remove_duplicates
    exact List.nodup_dedup _

/-- C8: for spacing `a ≥ 1` and electrode count `E ≥ 3a + 1`,
`gen_wenner` generates exactly the quadrupoles `(i, i+a, i+2a, i+3a)` for
`i = 1 .. E - 3a`, in that order; with `a = 1` and 8 electrodes it
produces exactly the 5 rows `(1,2,3,4) .. (5,6,7,8)`. -/
theorem C8_gen_wenner_exact (E a : ℤ) (ha : 1 ≤ a) (hE : 3 * a + 1 ≤ E) :
    ((gen_wenner_rows E a).length : ℤ) = E - 3 * a ∧
    (∀ (k : ℕ) (h : k < (gen_wenner_rows E a).length),
      (gen_wenner_rows E a)[k] =
        ((k : ℤ) + 1, (k : ℤ) + 1 + a, (k : ℤ) + 1 + 2 * a,
         (k : ℤ) + 1 + 3 * a)) ∧
    gen_wenner_rows 8 1 =
      [(1,2,3,4), (2,3,4,5), (3,4,5,6), (4,5,6,7), (5,6,7,8)] := by
  refine ⟨?_, ?_, by decide⟩
  · simp only [gen_wenner_rows, List.length_map, pyRange_length]
    omega
  · intro k h
    have hk : k < (pyRange 1 (E - 3 * a + 1)).length := by
      simpa [gen_wenner_rows] using h
    simp only [gen_wenner_rows, List.getElem_map, pyRange_getElem _ _ _ hk]
    simp only [Prod.mk.injEq]
    omega

/-- Witness for C8 at `E = 8`, `a = 1`. -/
theorem C8_gen_wenner_exact_witness :
    (1 : ℤ) ≤ 1 ∧ 3 * 1 + 1 ≤ (8 : ℤ) ∧
    ((gen_wenner_rows 8 1).length : ℤ) = 8 - 3 * 1 :=
  ⟨by decide, by decide, (C8_gen_wenner_exact 8 1 (by decide) (by decide)).1⟩

/-- C9: `nr_of_configs` returns `0` on a freshly created instance and on
any instance without stored configurations, and the number of stored rows
otherwise. -/
theorem C9_nr_of_configs_total :
    (∀ ne, nr_of_configs (initState ne) = 0) ∧
    (∀ s, s.configs = none → nr_of_configs s = 0) ∧
    (∀ s cfg, s.configs = some cfg → nr_of_configs s = cfg.length) :=
  ⟨fun _ => rfl,
   fun s h => by simp [nr_of_configs, h],
   fun s cfg h => by simp [nr_of_configs, h]⟩

/-- Witness for C9 on a fresh instance and on a one-row store. -/
theorem C9_nr_of_configs_total_witness :
    nr_of_configs (initState none) = 0 ∧
    nr_of_configs
      { configs := some [(1,2,3,4)], measurements := [],
        meas_counter := -1, nr_electrodes := none } = 1 := by
  constructor
  · exact C9_nr_of_configs_total.1 none
  · have h := C9_nr_of_configs_total.2.2
      { configs := some [(1,2,3,4)], measurements := [],
        meas_counter := -1, nr_electrodes := none } [(1,2,3,4)] rfl
    simpa using h

/-- C10: `add_to_configs` called with an empty batch returns `None` and
leaves the whole state unchanged, whatever the prior state. -/
theorem C10_add_to_configs_empty (configs : List Quad) (s : State)
    (h : configs.length = 0) :
    add_to_configs configs s = (s, none) := by
  unfold add_to_configs
  simp [h]

/-- Witness for C10 on a populated store. -/
theorem C10_add_to_configs_empty_witness :
    ([] : List Quad).length = 0 ∧
    add_to_configs []
      { configs := some [(1,2,3,4)], measurements := [],
        meas_counter := -1, nr_electrodes := none } =
      ({ configs := some [(1,2,3,4)], measurements := [],
         meas_counter := -1, nr_electrodes := none }, none) :=
  ⟨rfl, C10_add_to_configs_empty []
    { configs := some [(1,2,3,4)], measurements := [],
      meas_counter := -1, nr_electrodes := none } rfl⟩

/-- C5: every failing import aborts before any state mutation: a declared
row count that differs from the actual number of parsed rows makes
`load_crmod_config` and `load_crmod_volt` fail with the state exactly as it
was, and a volt file whose decoded quadrupoles differ from an
already-populated configuration store — per the code's own test,
`np.all(ABMN == self.configs)` being false — makes `load_crmod_volt` fail
with the state exactly as it was. -/
theorem C5_import_failure_no_mutation :
    (∀ (declared : ℕ) (rows : List (ℤ × ℤ)) (s : State),
      rows.length ≠ declared →
      load_crmod_config declared rows s = (s, some LoadErr.countMismatch)) ∧
    (∀ (declared : ℕ) (rows : List (ℤ × ℤ × ℚ × ℚ)) (s : State),
      rows.length ≠ declared →
      load_crmod_volt declared rows s = (s, Except.error LoadErr.countMismatch)) ∧
    (∀ (declared : ℕ) (rows : List (ℤ × ℤ × ℚ × ℚ)) (s : State)
       (cfg : List Quad),
      rows.length = declared → s.configs = some cfg →
      npAllEqRows (_crmod_to_abmn (rows.map (fun r => (r.1, r.2.1)))) cfg
        = false →
      load_crmod_volt declared rows s = (s, Except.error LoadErr.configMismatch)) := by
  refine ⟨fun d rows s h => ?_, fun d rows s h => ?_,
          fun d rows s cfg hlen hcfg hne => ?_⟩
  · unfold load_crmod_config
    simp [h]
  · unfold load_crmod_volt
    simp [h]
  · unfold load_crmod_volt
    simp [hlen, hcfg, hne]

/-- Witness for C5: a config file declaring 2 rows but holding 1, a volt
file declaring 2 rows but holding 1, and a volt file whose decoded
quadrupole `(2, 1, 4, 3)` conflicts (also under broadcasting, the row
counts being equal) with a store holding `(9, 9, 9, 9)`. -/
theorem C5_import_failure_no_mutation_witness :
    load_crmod_config 2 [(10002, 30004)] (initState none) =
      (initState none, some LoadErr.countMismatch) ∧
    load_crmod_volt 2 [(10002, 30004, 1, 0)] (initState none) =
      (initState none, Except.error LoadErr.countMismatch) ∧
    load_crmod_volt 1 [(10002, 30004, 1, 0)]
      { configs := some [(9,9,9,9)], measurements := [],
        meas_counter := -1, nr_electrodes := none } =
      ({ configs := some [(9,9,9,9)], measurements := [],
         meas_counter := -1, nr_electrodes := none },
       Except.error LoadErr.configMismatch) :=
  ⟨C5_import_failure_no_mutation.1 2 [(10002, 30004)] (initState none)
     (by decide),
   C5_import_failure_no_mutation.2.1 2 [(10002, 30004, 1, 0)] (initState none)
     (by decide),
   C5_import_failure_no_mutation.2.2 1 [(10002, 30004, 1, 0)]
     { configs := some [(9,9,9,9)], measurements := [],
       meas_counter := -1, nr_electrodes := none } [(9,9,9,9)]
     (by decide) rfl (by decide)⟩

theorem consecFrom_length (c : ℤ) (m : ℕ) : (consecFrom c m).length = m := by
  unfold consecFrom
  rw [List.length_map, List.length_range]

theorem consecFrom_succ (c : ℤ) (m : ℕ) :
    consecFrom c (m + 1) = (c + 1) :: consecFrom (c + 1) m := by
  unfold consecFrom
  rw [List.range_succ_eq_map, List.map_cons, List.map_map]
  simp only [Int.ofNat_eq_natCast, Nat.cast_zero, add_zero]
  congr 1
  apply List.map_congr_left
  intro k _
  simp only [Function.comp_apply, Int.ofNat_eq_natCast]
  push_cast
  ring

theorem consecFrom_append (c : ℤ) (m1 m2 : ℕ) :
    consecFrom c m1 ++ consecFrom (c + m1) m2 = consecFrom c (m1 + m2) := by
  unfold consecFrom
  rw [List.range_add, List.map_append, List.map_map]
  congr 1
  apply List.map_congr_left
  intro k _
  simp only [Function.comp_apply, Int.ofNat_eq_natCast]
  push_cast
  ring

theorem consecFrom_pairwise (c : ℤ) (m : ℕ) :
    (consecFrom c m).Pairwise (· < ·) := by
  unfold consecFrom
  refine List.Pairwise.map _ (fun a b hab => ?_) (List.pairwise_lt_range m)
  simp only [Int.ofNat_eq_natCast]
  omega

theorem consecFrom_headD (c : ℤ) (m : ℕ) (h : 0 < m) :
    (consecFrom c m).headD 0 = c + 1 := by
  obtain ⟨m', rfl⟩ : ∃ m', m = m' + 1 := ⟨m - 1, by omega⟩
  rw [consecFrom_succ]
  rfl

theorem addLoop_spec (ds : List (List ℚ)) (s : State) :
    (addLoop ds s).2 = consecFrom s.meas_counter ds.length ∧
    (addLoop ds s).1.meas_counter = s.meas_counter + ds.length ∧
    (addLoop ds s).1.configs = s.configs ∧
    (addLoop ds s).1.measurements =
      s.measurements ++ ((addLoop ds s).2.zip ds) := by
  induction ds generalizing s with
  | nil => simp [addLoop, consecFrom]
  | cons d rest ih =>
    simp only [addLoop, _get_next_index]
    obtain ⟨h1, h2, h3, h4⟩ := ih
      { s with meas_counter := s.meas_counter + 1,
               measurements := s.measurements ++ [(s.meas_counter + 1, d)] }
    refine ⟨?_, ?_, ?_, ?_⟩
    · rw [h1, List.length_cons, consecFrom_succ]
    · rw [h2]
      simp only [List.length_cons]
      push_cast
      ring
    · exact h3
    · rw [h4, h1, List.zip_cons_cons]
      simp

theorem add_measurements_error_eq (meas : List (List ℚ)) (s s1 : State)
    (e : LoadErr) (h : add_measurements meas s = (s1, Except.error e)) :
    s1 = s := by
  unfold add_measurements at h
  cases hc : s.configs with
  | none =>
    rw [hc] at h
    injection h with ha _
    exact ha.symm
  | some cfg =>
    rw [hc] at h
    dsimp only at h
    by_cases h1 : shape1 meas = cfg.length
    · rw [if_neg (not_ne_iff.mpr h1)] at h
      injection h with _ hb
      exact absurd hb (by simp)
    · rw [if_pos h1] at h
      by_cases h0 : shape0 meas = cfg.length
      · rw [if_pos h0] at h
        injection h with _ hb
        exact absurd hb (by simp)
      · rw [if_neg h0] at h
        injection h with ha _
        exact ha.symm

theorem add_measurements_ok_spec (meas : List (List ℚ)) (s s1 : State)
    (ids : List ℤ) (h : add_measurements meas s = (s1, Except.ok ids)) :
    ids = consecFrom s.meas_counter ids.length ∧
    s1.meas_counter = s.meas_counter + ids.length := by
  unfold add_measurements at h
  cases hc : s.configs with
  | none =>
    rw [hc] at h
    injection h with _ hb
    exact absurd hb (by simp)
  | some cfg =>
    rw [hc] at h
    dsimp only at h
    by_cases h1 : shape1 meas = cfg.length
    · rw [if_neg (not_ne_iff.mpr h1)] at h
      obtain ⟨hA, hB, -, -⟩ := addLoop_spec meas s
      injection h with hfst hsnd
      injection hsnd with hsnd
      constructor
      · rw [← hsnd, hA, consecFrom_length]
      · rw [← hfst, hB, ← hsnd, hA, consecFrom_length]
    · rw [if_pos h1] at h
      by_cases h0 : shape0 meas = cfg.length
      · rw [if_pos h0] at h
        obtain ⟨hA, hB, -, -⟩ := addLoop_spec meas.transpose s
        injection h with hfst hsnd
        injection hsnd with hsnd
        constructor
        · rw [← hsnd, hA, consecFrom_length]
        · rw [← hfst, hB, ← hsnd, hA, consecFrom_length]
      · rw [if_neg h0] at h
        injection h with _ hb
        exact absurd hb (by simp)

theorem runAdds_spec (bs : List (List (List ℚ))) (s : State) :
    ∃ m : ℕ, (runAdds bs s).2 = consecFrom s.meas_counter m ∧
      (runAdds bs s).1.meas_counter = s.meas_counter + m := by
  induction bs generalizing s with
  | nil => exact ⟨0, by simp [runAdds, consecFrom], by simp [runAdds]⟩
  | cons b rest ih =>
    unfold runAdds
    rcases hr : add_measurements b s with ⟨s1, res⟩
    cases res with
    | error e =>
      dsimp only
      have hs : s1 = s := add_measurements_error_eq b s s1 e hr
      rw [hs]
      exact ih s
    | ok ids =>
      dsimp only
      obtain ⟨hid, hcnt⟩ := add_measurements_ok_spec b s s1 ids hr
      obtain ⟨m, hm1, hm2⟩ := ih s1
      refine ⟨ids.length + m, ?_, ?_⟩
      · rw [hm1, hcnt]
        nth_rewrite 1 [hid]
        exact consecFrom_append s.meas_counter ids.length m
      · rw [hm2, hcnt]
        push_cast
        ring

/-- C6: within one instance lifetime (counter freshly initialised to `-1`
as `__init__` does), the ids returned by any sequence of successful
`add_measurements` calls are strictly increasing across the whole
sequence, never repeat, and the first assigned id is `0`. -/
theorem C6_measurement_ids_monotone (batches : List (List (List ℚ)))
    (s : State) (h : s.meas_counter = -1) :
    ((runAdds batches s).2).Chain' (· < ·) ∧
    ((runAdds batches s).2).Nodup ∧
    ((runAdds batches s).2 ≠ [] → (runAdds batches s).2.headD 0 = 0) := by
  obtain ⟨m, hids, -⟩ := runAdds_spec batches s
  rw [hids, h]
  refine ⟨(consecFrom_pairwise _ _).chain', ?_, fun hne => ?_⟩
  · exact (consecFrom_pairwise _ _).imp (fun hlt => ne_of_lt hlt)
  · have hm : 0 < m := by
      rcases Nat.eq_zero_or_pos m with h0 | h0
      · exact absurd (by simp [h0, consecFrom]) hne
      · exact h0
    rw [consecFrom_headD _ _ hm]
    ring

/-- Witness for C6: two one-by-one batches on a fresh one-config instance
yield the id sequence `0, 1`. -/
theorem C6_measurement_ids_monotone_witness :
    ({ configs := some [((1 : ℤ),(2 : ℤ),(3 : ℤ),(4 : ℤ))], measurements := [],
       meas_counter := -1, nr_electrodes := none } : State).meas_counter = -1 ∧
    ((runAdds [[[(1 : ℚ)]], [[(2 : ℚ)]]]
      { configs := some [(1,2,3,4)], measurements := [],
        meas_counter := -1, nr_electrodes := none }).2).Chain' (· < ·) :=
  ⟨rfl,
   (C6_measurement_ids_monotone [[[(1 : ℚ)]], [[(2 : ℚ)]]]
     { configs := some [(1,2,3,4)], measurements := [],
       meas_counter := -1, nr_electrodes := none } rfl).1⟩

/-- C7: `add_measurements` fails when no configuration exists; when the
second dimension of the (2-D) input differs from the number of stored
configurations it transposes the input once if the first dimension matches
and stores the transposed rows; it fails with a shape mismatch when
neither dimension matches; and it succeeds (storing the rows as given)
when the second dimension matches. -/
theorem C7_add_measurements_shape (meas : List (List ℚ)) (s : State) :
    (s.configs = none →
      add_measurements meas s = (s, Except.error LoadErr.noConfigs)) ∧
    (∀ cfg, s.configs = some cfg → shape1 meas = cfg.length →
      ∃ ids, (add_measurements meas s).2 = Except.ok ids ∧
        (add_measurements meas s).1.measurements =
          s.measurements ++ ids.zip meas) ∧
    (∀ cfg, s.configs = some cfg → shape1 meas ≠ cfg.length →
      shape0 meas = cfg.length →
      ∃ ids, (add_measurements meas s).2 = Except.ok ids ∧
        (add_measurements meas s).1.measurements =
          s.measurements ++ ids.zip meas.transpose) ∧
    (∀ cfg, s.configs = some cfg → shape1 meas ≠ cfg.length →
      shape0 meas ≠ cfg.length →
      add_measurements meas s = (s, Except.error LoadErr.shapeMismatch)) := by
  refine ⟨fun h => ?_, fun cfg hc h1 => ?_, fun cfg hc h1 h0 => ?_,
          fun cfg hc h1 h0 => ?_⟩
  · unfold add_measurements
    rw [h]
  · obtain ⟨-, -, -, hM⟩ := addLoop_spec meas s
    refine ⟨(addLoop meas s).2, ?_, ?_⟩
    · unfold add_measurements
      rw [hc]
      dsimp only
      rw [if_neg (not_ne_iff.mpr h1)]
    · unfold add_measurements
      rw [hc]
      dsimp only
      rw [if_neg (not_ne_iff.mpr h1)]
      exact hM
  · obtain ⟨-, -, -, hM⟩ := addLoop_spec meas.transpose s
    refine ⟨(addLoop meas.transpose s).2, ?_, ?_⟩
    · unfold add_measurements
      rw [hc]
      dsimp only
      rw [if_pos h1, if_pos h0]
    · unfold add_measurements
      rw [hc]
      dsimp only
      rw [if_pos h1, if_pos h0]
      exact hM
  · unfold add_measurements
    rw [hc]
    dsimp only
    rw [if_pos h1, if_neg h0]

/-- Witness for C7: the precondition-violation case on a fresh instance. -/
theorem C7_add_measurements_shape_witness :
    (initState none).configs = none ∧
    add_measurements [[(1 : ℚ)]] (initState none) =
      (initState none, Except.error LoadErr.noConfigs) :=
  ⟨rfl, (C7_add_measurements_shape [[(1 : ℚ)]] (initState none)).1 rfl⟩

theorem flatMap_single {α β : Type _} (g : α → List β) (g1 : α → β)
    (h : ∀ a, g a = [g1 a]) (l : List α) : l.flatMap g = l.map g1 := by
  induction l with
  | nil => rfl
  | cons x xs ih =>
    rw [List.flatMap_cons, List.map_cons, h x, ih]
    rfl

theorem quad_eq_swap_of_cross {p q : Quad}
    (h1 : abOf p = mnOf q) (h2 : mnOf p = abOf q) : p = swapQuad q := by
  obtain ⟨a, b, m, n⟩ := p
  obtain ⟨a', b', m', n'⟩ := q
  simp only [abOf, mnOf, swapQuad, Prod.mk.injEq] at h1 h2 ⊢
  exact ⟨h1.1, h1.2, h2.1, h2.2⟩

theorem split_pad_true_eq (configs : List Quad) :
    split_into_normal_and_reciprocal configs true =
      ((normalIndices configs).map (fun i => some (configs.getD i default)) ++
         (orphanIndices configs).map (fun _ => (none : Option Quad)),
       (normalIndices configs).map (recipOne configs) ++
         (orphanIndices configs).map (fun i => some (configs.getD i default))) := by
  unfold split_into_normal_and_reciprocal
  dsimp only
  congr 1
  congr 1
  apply flatMap_single
  intro i
  unfold recipOne
  cases hri : recIndices (configs.map normalizeQuad) i with
  | nil => rfl
  | cons j t => rfl

/-- C3: `split_into_normal_and_reciprocal` with `pad=True` returns two
arrays of equal length that are index-aligned (position `i`'s reciprocal
is either the placeholder or a dipole-swapped match of position `i`'s
normal, one side possibly a placeholder); on the store
`[(1,2,3,4), (3,4,1,2)]` the normal `(1,2,3,4)` and the reciprocal
`(3,4,1,2)` share index 0, and on the store `[(1,2,3,4)]` the reciprocal
at that index is the placeholder. -/
theorem C3_split_pad_aligned (configs : List Quad) :
    (split_into_normal_and_reciprocal configs true).1.length =
      (split_into_normal_and_reciprocal configs true).2.length ∧
    (∀ k : ℕ, alignedPair
      ((split_into_normal_and_reciprocal configs true).1.getD k none)
      ((split_into_normal_and_reciprocal configs true).2.getD k none)) ∧
    split_into_normal_and_reciprocal [(1,2,3,4), (3,4,1,2)] true =
      ([some (1,2,3,4)], [some (3,4,1,2)]) ∧
    split_into_normal_and_reciprocal [(1,2,3,4)] true =
      ([some (1,2,3,4)], [none]) := by
  rw [split_pad_true_eq]
  refine ⟨?_, ?_, by rfl, by rfl⟩
  · simp only [List.length_append, List.length_map]
  · intro k
    by_cases hk : k < (normalIndices configs).length
    · have hk1 : k < ((normalIndices configs).map
          (fun i => some (configs.getD i default))).length := by
        simpa using hk
      have hk2 : k < ((normalIndices configs).map (recipOne configs)).length := by
        simpa using hk
      rw [List.getD_append _ _ _ _ hk1, List.getD_append _ _ _ _ hk2,
          List.getD_eq_getElem _ _ hk1, List.getD_eq_getElem _ _ hk2,
          List.getElem_map, List.getElem_map]
      have hiA : (normalIndices configs)[k] ∈ normalIndices configs :=
        List.getElem_mem _
      have hi_lt : (normalIndices configs)[k] < configs.length := by
        have h0 := hiA
        unfold normalIndices at h0
        simp only [List.mem_filter, List.mem_range] at h0
        exact h0.1
      generalize hieq : (normalIndices configs)[k] = i at hi_lt
      unfold recipOne
      cases hri : recIndices (configs.map normalizeQuad) i with
      | nil => exact Or.inr (Or.inl rfl)
      | cons j t =>
        have hjmem : j ∈ recIndices (configs.map normalizeQuad) i := by
          rw [hri]
          exact List.mem_cons_self _ _
        unfold recIndices at hjmem
        simp only [List.mem_filter, List.mem_range, decide_eq_true_eq] at hjmem
        have hj_lt := hjmem.1
        have hcross1 := hjmem.2.1
        have hcross2 := hjmem.2.2
        rw [List.length_map] at hj_lt
        have hcnj : (configs.map normalizeQuad).getD j default
            = normalizeQuad (configs.getD j default) := by
          rw [List.getD_eq_getElem _ _ (by simpa using hj_lt),
              List.getElem_map, List.getD_eq_getElem _ _ hj_lt]
        have hcni : (configs.map normalizeQuad).getD i default
            = normalizeQuad (configs.getD i default) := by
          rw [List.getD_eq_getElem _ _ (by simpa using hi_lt),
              List.getElem_map, List.getD_eq_getElem _ _ hi_lt]
        rw [hcnj, hcni] at hcross1 hcross2
        exact Or.inr (Or.inr ⟨configs.getD i default, configs.getD j default,
          rfl, rfl, quad_eq_swap_of_cross hcross1 hcross2⟩)
    · have hnone : (((normalIndices configs).map
          (fun i => some (configs.getD i default)) ++
          (orphanIndices configs).map (fun _ => (none : Option Quad))).getD
            k none) = none := by
        rw [List.getD_append_right _ _ _ _ (by simpa using Nat.le_of_not_lt hk)]
        rcases Nat.lt_or_ge
            (k - ((normalIndices configs).map
              (fun i => some (configs.getD i default))).length)
            ((orphanIndices configs).map (fun _ => (none : Option Quad))).length
            with hlt | hge
        · rw [List.getD_eq_getElem _ _ hlt, List.getElem_map]
        · rw [List.getD_eq_default _ _ hge]
      rw [hnone]
      exact Or.inl rfl

end Crtomo
